import Mathlib

/-!
Verification development for the call-center simulation
(`src/call_center_sim_with_csv.py`).

The script delegates virtual-time scheduling, processes and the agent-pool
resource to the `simpy` library, and random variates to Python's `random`
module; neither library is part of this repository's sources.  Those engine
parts are therefore modelled from the specification (event queue ordered by
`(due_time, sequence)` with a FIFO tie-break, a capacity-limited resource with
a FIFO wait queue, a seeded random stream).  The process bodies `customer`,
`generate_customers`, `watch_queue` and the driver `run_simulation` with its
metrics reduction are translated directly from the source file.

Python floats are modelled as rationals, Python ints as `Int`/`Nat`.
A possibly endless run (`while True` generators) is given explicit fuel;
exhausting the fuel is reported as the distinguished error `outOfFuel`.
-/

namespace CallCenter

/-- Modelled from the spec (§4.2 RandomStream): the interface of the global
`random` module as used by the script.  `seedFn` models `random.seed`
(it replaces the whole generator state), `expovariate` models
`random.expovariate lambd`, returning a variate and the successor state. -/
structure RNG (S : Type) where
  seedFn : ℤ → S
  expovariate : ℚ → S → ℚ × S

/-- A trivial random stream used to evaluate the model on concrete inputs:
every exponential draw equals 1. -/
def constRNG : RNG Unit :=
  { seedFn := fun _ => (), expovariate := fun _ _ => (1, ()) }

/-- The kinds of process resumption occurring in the script: the arrival
generator's first resumption (`generate_customers` entering its loop), its
timeout wake-ups, a spawned customer's first resumption (`customer` body
start), a customer's end-of-service wake-up, and the queue sampler
(`watch_queue`). -/
inductive Proc
  | genStart
  | genWake
  | custInit
  | custEnd
  | samplerWake
deriving DecidableEq

/-- Modelled from the spec (§3 Event): a pending wake-up, keyed by
`(due_time, sequence)`; the sequence counter is assigned at scheduling time
and is strictly increasing. -/
structure Ev where
  due : ℚ
  seq : ℕ
  proc : Proc
deriving DecidableEq

/-- Modelled from the spec (§4.1 EventQueue): insertion keeping the queue
sorted by due time, placing a new event after all events with due time
less than or equal to its own.  Since sequence numbers increase, this is
exactly the `(due_time, sequence)` order with FIFO tie-break. -/
def insertEv (e : Ev) : List Ev → List Ev
  | [] => [e]
  | x :: xs => if x.due ≤ e.due then x :: insertEv e xs else e :: x :: xs

/-- The whole mutable state of one simulation run: the scheduler clock and
event queue, the `random` state, the `simpy.Resource` fields (`in_use`,
`wait_queue`; a pending request is represented by the requester's arrival
time), and the `stats` dictionary of the script (lines 66-71). -/
structure SimState (S : Type) where
  now : ℚ
  seqCtr : ℕ
  events : List Ev
  rng : S
  in_use : ℕ
  wait_queue : List ℚ
  arrived_calls : ℕ
  finished_calls : ℕ
  wait_times : List ℚ
  queue_sizes : List ℕ
deriving DecidableEq

/-- Errors a run can surface.  `invalidConfiguration` is the spec's §7
construction-time rejection; no code path of the source produces it (the
script performs no upfront validation).  The others model the Python
exceptions actually reachable: `valueErrorCapacity` from
`simpy.Resource(env, capacity≤0)`, `untilNotPositive` from
`env.run(until≤now)`, `zeroDivision` from `1/x` with `x = 0`, and
`negativeDelay` from `env.timeout` with a negative delay.  `outOfFuel` is
the fuel-exhaustion artifact of the embedding. -/
inductive SimError
  | invalidConfiguration
  | valueErrorCapacity
  | untilNotPositive
  | zeroDivision
  | negativeDelay
  | outOfFuel
deriving DecidableEq

variable {S : Type}

/-- Modelled from the spec (§4.1): schedule a resumption of `p` after
`delay`, stamping it with the next sequence number. -/
def schedule (s : SimState S) (delay : ℚ) (p : Proc) : SimState S :=
  { s with events := insertEv ⟨s.now + delay, s.seqCtr, p⟩ s.events,
           seqCtr := s.seqCtr + 1 }

variable (R : RNG S) (cap : ℕ) (arrival_gap service_time horizon : ℚ)

/-- `generate_customers` lines 39-40: sample the next inter-arrival gap with
`random.expovariate(1 / arrival_gap)` and suspend for it.  `1/0` raises
`ZeroDivisionError`; a negative delay makes `env.timeout` raise. -/
def sampleAndScheduleGen (s : SimState S) : Except SimError (SimState S) :=
  if arrival_gap = 0 then .error .zeroDivision
  else if (R.expovariate (1 / arrival_gap) s.rng).1 < 0 then .error .negativeDelay
  else .ok (schedule { s with rng := (R.expovariate (1 / arrival_gap) s.rng).2 }
              (R.expovariate (1 / arrival_gap) s.rng).1 .genWake)

/-- `customer` lines 19-24, from the instant an agent is granted: record
`wait = env.now - arrival_time` into `stats["wait_times"]`, then sample the
service duration with `random.expovariate(1 / service_time)` and suspend
until the call ends. -/
def startService (arrival_time : ℚ) (s : SimState S) : Except SimError (SimState S) :=
  let s1 := { s with wait_times := s.wait_times ++ [s.now - arrival_time] }
  if service_time = 0 then .error .zeroDivision
  else if (R.expovariate (1 / service_time) s1.rng).1 < 0 then .error .negativeDelay
  else .ok (schedule { s1 with rng := (R.expovariate (1 / service_time) s1.rng).2 }
              (R.expovariate (1 / service_time) s1.rng).1 .custEnd)

/-- One process resumption, by process kind:
* `genStart`: `generate_customers` enters its loop and samples the first gap;
* `genWake`: lines 41-43 then loop: spawn a `customer` process (its body runs
  at the current instant, as a freshly scheduled event), increment
  `stats["arrived_calls"]`, sample the next gap;
* `custInit`: `customer` lines 11-16: record the arrival time and issue
  `agents.request()` — granted at once if an agent is free (then service
  starts, with wait 0), otherwise the request joins the FIFO `wait_queue`;
* `custEnd`: `customer` lines 25-28 and the `with`-exit: increment
  `stats["finished_calls"]`, then release the agent; per the spec's Resource
  contract (§4.3) the release grants the head of the wait queue, if any;
* `samplerWake`: `watch_queue` lines 51-53: append `len(agents.queue)` to
  `stats["queue_sizes"]` and suspend for the 1.0-minute sample period. -/
def runEvent : Proc → SimState S → Except SimError (SimState S)
  | .genStart, s => sampleAndScheduleGen R arrival_gap s
  | .genWake, s =>
      let s1 := schedule s 0 .custInit
      sampleAndScheduleGen R arrival_gap
        { s1 with arrived_calls := s1.arrived_calls + 1 }
  | .custInit, s =>
      if s.in_use < cap then
        startService R service_time s.now { s with in_use := s.in_use + 1 }
      else .ok { s with wait_queue := s.wait_queue ++ [s.now] }
  | .custEnd, s =>
      let s1 := { s with finished_calls := s.finished_calls + 1,
                         in_use := s.in_use - 1 }
      match s1.wait_queue with
      | [] => .ok s1
      | a :: rest =>
          startService R service_time a
            { s1 with in_use := s1.in_use + 1, wait_queue := rest }
  | .samplerWake, s =>
      .ok (schedule { s with queue_sizes := s.queue_sizes ++ [s.wait_queue.length] }
             1 .samplerWake)

/-- Modelled from the spec (§4.1 Scheduler): one iteration of the main loop.
Extract the earliest event (head of the sorted queue); stop (`none`) when the
queue is empty or the event is not due strictly before the horizon
(`env.run(until)` does not process events at or past `until`); otherwise
advance the clock to its due time and resume the bound process. -/
def step (s : SimState S) : Except SimError (Option (SimState S)) :=
  match s.events with
  | [] => .ok none
  | e :: rest =>
      if horizon ≤ e.due then .ok none
      else (runEvent R cap arrival_gap service_time e.proc
              { s with now := e.due, events := rest }).map some

/-- Iterated scheduler steps; `ok (some s)` means state `s` is reached after
exactly `n` processed events. -/
def stepsTo : ℕ → SimState S → Except SimError (Option (SimState S))
  | 0, s => .ok (some s)
  | n + 1, s =>
      match step R cap arrival_gap service_time horizon s with
      | .ok (some s1) => stepsTo n s1
      | .ok none => .ok none
      | .error e => .error e

/-- The scheduler main loop with explicit fuel, returning the final state. -/
def runLoop : ℕ → SimState S → Except SimError (SimState S)
  | 0, _ => .error .outOfFuel
  | n + 1, s =>
      match step R cap arrival_gap service_time horizon s with
      | .ok (some s1) => runLoop n s1
      | .ok none => .ok s
      | .error e => .error e

/-- The state of `run_simulation` just before `env.run` (lines 62-75): clock
at 0, empty statistics, and two pending initial events — the
`generate_customers` process was started first, the `watch_queue` process
second, so they hold sequence numbers 0 and 1. -/
def initState (r : S) : SimState S :=
  { now := 0, seqCtr := 2,
    events := [⟨0, 0, .genStart⟩, ⟨0, 1, .samplerWake⟩],
    rng := r, in_use := 0, wait_queue := [],
    arrived_calls := 0, finished_calls := 0,
    wait_times := [], queue_sizes := [] }

/-- The `stats` dictionary contents at the end of a run. -/
structure RunStatistics where
  arrived_calls : ℕ
  finished_calls : ℕ
  wait_times : List ℚ
  queue_sizes : List ℕ
deriving DecidableEq

def statsOf (s : SimState S) : RunStatistics :=
  ⟨s.arrived_calls, s.finished_calls, s.wait_times, s.queue_sizes⟩

/-- The unrounded summary metrics computed by `run_simulation` lines 80-92. -/
structure Metrics where
  avg_wait : ℚ
  avg_queue : ℚ
  throughput : ℚ
  utilization : ℚ
deriving DecidableEq

/-- `run_simulation` lines 80-92: averages guarded by list emptiness, then
`throughput = finished_calls / sim_time` and
`utilization = throughput * service_time / num_agents`, all unrounded. -/
def computeMetrics (st : RunStatistics) (sim_time service_time : ℚ)
    (num_agents : ℤ) : Metrics :=
  let avg_wait : ℚ := if st.wait_times.isEmpty then 0
    else st.wait_times.sum / st.wait_times.length
  let avg_queue : ℚ := if st.queue_sizes.isEmpty then 0
    else ((st.queue_sizes.map (Nat.cast : ℕ → ℚ)).sum) / st.queue_sizes.length
  let throughput : ℚ := (st.finished_calls : ℚ) / sim_time
  { avg_wait := avg_wait, avg_queue := avg_queue, throughput := throughput,
    utilization := throughput * service_time / num_agents }

/-- Python's banker's rounding to an integer (`round` rounds halves to the
nearest even integer). -/
def rndHalfEven (q : ℚ) : ℤ :=
  if q - ⌊q⌋ < 1 / 2 then ⌊q⌋
  else if 1 / 2 < q - ⌊q⌋ then ⌊q⌋ + 1
  else if Even ⌊q⌋ then ⌊q⌋ else ⌊q⌋ + 1

/-- Python's `round(q, ndigits)`, on rationals. -/
def pyRound (ndigits : ℕ) (q : ℚ) : ℚ :=
  (rndHalfEven (q * 10 ^ ndigits) : ℚ) / 10 ^ ndigits

/-- The record returned by `run_simulation` (lines 94-102). -/
structure OutputRecord where
  agents : ℤ
  average_wait : ℚ
  average_queue_length : ℚ
  throughput : ℚ
  utilization : ℚ
  arrived_calls : ℕ
  finished_calls : ℕ
deriving DecidableEq

/-- Lines 94-102: the output record rounds the computed metrics at display
precision — 2 decimal places for the averages, 3 for throughput and
utilization — and copies the raw counters. -/
def mkRecord (num_agents : ℤ) (m : Metrics) (st : RunStatistics) : OutputRecord :=
  { agents := num_agents,
    average_wait := pyRound 2 m.avg_wait,
    average_queue_length := pyRound 2 m.avg_queue,
    throughput := pyRound 3 m.throughput,
    utilization := pyRound 3 m.utilization,
    arrived_calls := st.arrived_calls,
    finished_calls := st.finished_calls }

/-- `run_simulation` lines 60-78 up to the end of `env.run`: `random.seed`
replaces the ambient generator state `g` by `R.seedFn seed`;
`simpy.Resource` rejects a non-positive capacity with `ValueError`;
`env.run(until=sim_time)` rejects `sim_time ≤ env.now = 0` with `ValueError`;
otherwise the scheduler loop runs.  `g` models the state of the global
`random` module at call time. -/
def runStats (fuel : ℕ) (sim_time : ℚ) (num_agents : ℤ)
    (arrival_gap service_time : ℚ) (seed : ℤ) (g : S) :
    Except SimError (SimState S) :=
  if num_agents ≤ 0 then .error .valueErrorCapacity
  else if sim_time ≤ 0 then .error .untilNotPositive
  else runLoop R num_agents.toNat arrival_gap service_time sim_time fuel
    (initState (R.seedFn seed))

/-- `run_simulation` lines 60-102, composed of the run and the metrics
reduction plus rounding. -/
def run_simulation (fuel : ℕ) (sim_time : ℚ) (num_agents : ℤ)
    (arrival_gap service_time : ℚ) (seed : ℤ) (g : S) :
    Except SimError OutputRecord :=
  (runStats R fuel sim_time num_agents arrival_gap service_time seed g).map
    fun s => mkRecord num_agents
      (computeMetrics (statsOf s) sim_time service_time num_agents) (statsOf s)

/-- The spec's arithmetic mean of a sample list, 0 on the empty list. -/
def listMean (l : List ℚ) : ℚ :=
  if l = [] then 0 else l.sum / l.length

/-- Modelled from the spec (§4.2, §7): `next_exponential(mean)`, the
RandomStream operation absent from the source (the script calls
`random.expovariate(1/mean)` directly); fails with `InvalidMean` when
`mean ≤ 0`. -/
inductive RandError
  | invalidMean
deriving DecidableEq

/-- Modelled from the spec: `next_exponential(mean) -> duration`, fails with
`InvalidMean` if `mean ≤ 0`, otherwise draws `expovariate(1/mean)`. -/
def next_exponential (mean : ℚ) (s : S) : Except RandError (ℚ × S) :=
  if mean ≤ 0 then .error .invalidMean
  else .ok (R.expovariate (1 / mean) s)

/-- Number of pending events resuming a process of kind `p`. -/
def countProc (p : Proc) (l : List Ev) : ℕ :=
  l.countP (fun e => e.proc == p)

/-- Conservation of callers: every spawn increments `arrived_calls`, and each
spawned caller is in exactly one of four places — its start event is pending,
it waits in the resource queue, its end-of-service event is pending, or it is
counted in `finished_calls`. -/
def CountInv (s : SimState S) : Prop :=
  s.arrived_calls =
    countProc .custInit s.events + s.wait_queue.length +
      countProc .custEnd s.events + s.finished_calls

/-- The spec's Resource invariant (§3): `0 ≤ in_use ≤ capacity`, and the wait
queue is non-empty only at full occupancy. -/
def ResInv (cap : ℕ) (s : SimState S) : Prop :=
  s.in_use ≤ cap ∧ (s.wait_queue ≠ [] → s.in_use = cap)

/-- Clock sanity: the event queue is sorted by due time, no pending event is
due in the past, queued requests were enqueued no later than now, and all
recorded waits are non-negative. -/
def TimeInv (s : SimState S) : Prop :=
  List.Pairwise (fun a b : Ev => a.due ≤ b.due) s.events ∧
  (∀ e ∈ s.events, s.now ≤ e.due) ∧
  (∀ a ∈ s.wait_queue, a ≤ s.now) ∧
  (∀ w ∈ s.wait_times, 0 ≤ w)

/-- The state reached after 8 scheduler steps of the configuration
`cap = 1, gap = 1, service = 1, horizon = 4` under `constRNG`: two callers
arrived, one finished, one start event pending. -/
def traceState8 : SimState Unit :=
  ⟨2, 11, [⟨2, 8, .custInit⟩, ⟨3, 9, .genWake⟩, ⟨3, 10, .samplerWake⟩],
   (), 0, [], 2, 1, [0], [0, 0, 0]⟩

/-- The final state of the complete run
`runStats constRNG 3 1 1 1 1 0 ()` (horizon 1, one agent). -/
def finalStateSmall : SimState Unit :=
  ⟨0, 4, [⟨1, 2, .genWake⟩, ⟨1, 3, .samplerWake⟩], (), 0, [], 0, 0, [], [0]⟩

section Lemmas

theorem mem_insertEv {e a : Ev} {l : List Ev} :
    a ∈ insertEv e l ↔ a = e ∨ a ∈ l := by
  induction l with
  | nil => simp [insertEv]
  | cons x xs ih =>
    by_cases hx : x.due ≤ e.due
    · simp only [insertEv, if_pos hx, List.mem_cons, ih]
      tauto
    · simp only [insertEv, if_neg hx, List.mem_cons]

theorem countP_insertEv (f : Ev → Bool) (e : Ev) (l : List Ev) :
    (insertEv e l).countP f = l.countP f + (if f e then 1 else 0) := by
  induction l with
  | nil => simp [insertEv, List.countP_cons]
  | cons x xs ih =>
    by_cases hx : x.due ≤ e.due
    · simp only [insertEv, if_pos hx, List.countP_cons, ih]
      omega
    · simp only [insertEv, if_neg hx, List.countP_cons]

theorem countProc_insertEv (p : Proc) (e : Ev) (l : List Ev) :
    countProc p (insertEv e l) =
      countProc p l + (if e.proc = p then 1 else 0) := by
  simp only [countProc, countP_insertEv, beq_iff_eq]

theorem pairwise_insertEv (e : Ev) :
    ∀ l : List Ev, List.Pairwise (fun a b : Ev => a.due ≤ b.due) l →
      List.Pairwise (fun a b : Ev => a.due ≤ b.due) (insertEv e l)
  | [], _ => by simp [insertEv]
  | x :: xs, h => by
    rw [List.pairwise_cons] at h
    obtain ⟨hx, hxs⟩ := h
    by_cases hxe : x.due ≤ e.due
    · rw [insertEv, if_pos hxe]
      refine List.Pairwise.cons ?_ (pairwise_insertEv e xs hxs)
      intro b hb
      rcases mem_insertEv.1 hb with rfl | hb
      · exact hxe
      · exact hx b hb
    · rw [insertEv, if_neg hxe]
      refine List.Pairwise.cons ?_ (List.Pairwise.cons hx hxs)
      intro b hb
      rcases List.mem_cons.1 hb with rfl | hb
      · exact le_of_not_le hxe
      · exact le_trans (le_of_not_le hxe) (hx b hb)

theorem step_nil {R : RNG S} {cap : ℕ} {gap sv hor : ℚ} {s : SimState S}
    (h : s.events = []) : step R cap gap sv hor s = .ok none := by
  unfold step; rw [h]

theorem step_cons {R : RNG S} {cap : ℕ} {gap sv hor : ℚ} {s : SimState S}
    {e : Ev} {rest : List Ev} (h : s.events = e :: rest) :
    step R cap gap sv hor s =
      if hor ≤ e.due then .ok none
      else (runEvent R cap gap sv e.proc
              { s with now := e.due, events := rest }).map some := by
  unfold step; rw [h]

theorem step_ok_some {R : RNG S} {cap : ℕ} {gap sv hor : ℚ} {s s' : SimState S}
    (h : step R cap gap sv hor s = .ok (some s')) :
    ∃ e rest, s.events = e :: rest ∧ e.due < hor ∧
      runEvent R cap gap sv e.proc
        { s with now := e.due, events := rest } = .ok s' := by
  cases hev : s.events with
  | nil => rw [step_nil hev] at h; exact absurd h (by simp)
  | cons e rest =>
    rw [step_cons hev] at h
    by_cases hh : hor ≤ e.due
    · rw [if_pos hh] at h; exact absurd h (by simp)
    · rw [if_neg hh] at h
      refine ⟨e, rest, rfl, lt_of_not_le hh, ?_⟩
      cases hr : runEvent R cap gap sv e.proc
          { s with now := e.due, events := rest } with
      | error ex => rw [hr] at h; exact absurd h (by simp [Except.map])
      | ok s2 =>
        rw [hr] at h
        simp only [Except.map, Except.ok.injEq, Option.some.injEq] at h
        rw [h]

/-- Exhaustive description of the successful one-event transitions of the
model: what each process resumption may do to the state. -/
theorem runEvent_cases {R : RNG S} {cap : ℕ} {gap sv : ℚ} {p : Proc}
    {s s' : SimState S} (h : runEvent R cap gap sv p s = .ok s') :
    (p = .genStart ∧ ∃ d r, 0 ≤ d ∧
      s' = schedule { s with rng := r } d .genWake) ∨
    (p = .genWake ∧ ∃ d r, 0 ≤ d ∧
      s' = schedule { schedule s 0 .custInit with
                        arrived_calls := s.arrived_calls + 1, rng := r }
             d .genWake) ∨
    (p = .custInit ∧ s.in_use < cap ∧ ∃ d r, 0 ≤ d ∧
      s' = schedule { s with in_use := s.in_use + 1,
                             wait_times := s.wait_times ++ [s.now - s.now],
                             rng := r } d .custEnd) ∨
    (p = .custInit ∧ ¬ s.in_use < cap ∧
      s' = { s with wait_queue := s.wait_queue ++ [s.now] }) ∨
    (p = .custEnd ∧ s.wait_queue = [] ∧
      s' = { s with finished_calls := s.finished_calls + 1,
                    in_use := s.in_use - 1 }) ∨
    (p = .custEnd ∧ ∃ a tl d r, s.wait_queue = a :: tl ∧ 0 ≤ d ∧
      s' = schedule { s with finished_calls := s.finished_calls + 1,
                             in_use := s.in_use - 1 + 1,
                             wait_queue := tl,
                             wait_times := s.wait_times ++ [s.now - a],
                             rng := r } d .custEnd) ∨
    (p = .samplerWake ∧
      s' = schedule { s with
              queue_sizes := s.queue_sizes ++ [s.wait_queue.length] }
             1 .samplerWake) := by
  cases p with
  | genStart =>
    simp only [runEvent, sampleAndScheduleGen] at h
    split at h
    · exact Except.noConfusion h
    · split at h
      · exact Except.noConfusion h
      · rename_i hgap hd
        injection h with h1
        exact Or.inl ⟨rfl, _, _, le_of_not_lt hd, h1.symm⟩
  | genWake =>
    simp only [runEvent, sampleAndScheduleGen] at h
    split at h
    · exact Except.noConfusion h
    · split at h
      · exact Except.noConfusion h
      · rename_i hgap hd
        injection h with h1
        exact Or.inr (Or.inl ⟨rfl, _, _, le_of_not_lt hd, h1.symm⟩)
  | custInit =>
    simp only [runEvent, startService] at h
    by_cases hc : s.in_use < cap
    · rw [if_pos hc] at h
      split at h
      · exact Except.noConfusion h
      · split at h
        · exact Except.noConfusion h
        · rename_i hsv hd
          injection h with h1
          exact Or.inr (Or.inr (Or.inl
            ⟨rfl, hc, _, _, le_of_not_lt hd, h1.symm⟩))
    · rw [if_neg hc] at h
      injection h with h1
      exact Or.inr (Or.inr (Or.inr (Or.inl ⟨rfl, hc, h1.symm⟩)))
  | custEnd =>
    cases hq : s.wait_queue with
    | nil =>
      simp only [runEvent, hq] at h
      injection h with h1
      exact Or.inr (Or.inr (Or.inr (Or.inr (Or.inl ⟨rfl, rfl, h1.symm⟩))))
    | cons a tl =>
      simp only [runEvent, startService, hq] at h
      split at h
      · exact Except.noConfusion h
      · split at h
        · exact Except.noConfusion h
        · rename_i hsv hd
          injection h with h1
          exact Or.inr (Or.inr (Or.inr (Or.inr (Or.inr (Or.inl
            ⟨rfl, a, tl, _, _, rfl, le_of_not_lt hd, h1.symm⟩)))))
  | samplerWake =>
    simp only [runEvent] at h
    injection h with h1
    exact Or.inr (Or.inr (Or.inr (Or.inr (Or.inr (Or.inr ⟨rfl, h1.symm⟩)))))

/-- Transport of an invariant along iterated scheduler steps. -/
theorem stepsTo_pres {R : RNG S} {cap : ℕ} {gap sv hor : ℚ}
    (P : SimState S → Prop)
    (hP : ∀ s s', step R cap gap sv hor s = .ok (some s') → P s → P s') :
    ∀ n (s s' : SimState S),
      stepsTo R cap gap sv hor n s = .ok (some s') → P s → P s' := by
  intro n
  induction n with
  | zero =>
    intro s s' h hs
    unfold stepsTo at h
    simp only [Except.ok.injEq, Option.some.injEq] at h
    rw [← h]; exact hs
  | succ n ih =>
    intro s s' h hs
    unfold stepsTo at h
    cases hst : step R cap gap sv hor s with
    | error ex => rw [hst] at h; exact absurd h (by simp)
    | ok o =>
      cases o with
      | none => rw [hst] at h; exact absurd h (by simp)
      | some s1 => rw [hst] at h; exact ih s1 s' h (hP s s1 hst hs)

theorem countProc_cons (p : Proc) (e : Ev) (l : List Ev) :
    countProc p (e :: l) = countProc p l + (if e.proc = p then 1 else 0) := by
  simp [countProc, List.countP_cons]

theorem step_countInv {R : RNG S} {cap : ℕ} {gap sv hor : ℚ}
    {s s' : SimState S} (h : step R cap gap sv hor s = .ok (some s'))
    (hI : CountInv s) : CountInv s' := by
  obtain ⟨e, rest, hev, hlt, hrun⟩ := step_ok_some h
  have hIr := hI
  rcases runEvent_cases hrun with
    ⟨hp, d, r, hd, hs'⟩ | ⟨hp, d, r, hd, hs'⟩ | ⟨hp, hc, d, r, hd, hs'⟩ |
    ⟨hp, hc, hs'⟩ | ⟨hp, hq, hs'⟩ | ⟨hp, a, tl, d, r, hq, hd, hs'⟩ | ⟨hp, hs'⟩ <;>
    subst hs' <;>
    simp only [CountInv, hev, countProc_cons, hp] at hIr <;>
    simp at hIr <;>
    simp [CountInv, schedule, countProc_insertEv, countProc_cons]
  · omega
  · omega
  · omega
  · omega
  · simp at hq; simp [hq] at hIr ⊢; omega
  · simp at hq
    have hlen := congrArg List.length hq
    simp at hlen
    simp [hq] at hIr
    omega
  · omega

theorem step_resInv {R : RNG S} {cap : ℕ} {gap sv hor : ℚ}
    {s s' : SimState S} (hcap : 0 < cap)
    (h : step R cap gap sv hor s = .ok (some s'))
    (hI : ResInv cap s) : ResInv cap s' := by
  obtain ⟨e, rest, hev, hlt, hrun⟩ := step_ok_some h
  obtain ⟨hle, hfull⟩ := hI
  rcases runEvent_cases hrun with
    ⟨hp, d, r, hd, hs'⟩ | ⟨hp, d, r, hd, hs'⟩ | ⟨hp, hc, d, r, hd, hs'⟩ |
    ⟨hp, hc, hs'⟩ | ⟨hp, hq, hs'⟩ | ⟨hp, a, tl, d, r, hq, hd, hs'⟩ | ⟨hp, hs'⟩ <;>
    subst hs' <;>
    simp only [ResInv, schedule] at *
  · exact ⟨hle, hfull⟩
  · exact ⟨hle, hfull⟩
  · refine ⟨by omega, ?_⟩
    intro hne
    exact absurd (hfull hne) (by omega)
  · simp at hc
    exact ⟨hle, fun _ => le_antisymm hle hc⟩
  · refine ⟨by omega, ?_⟩
    simp [hq]
  · have := hfull (by simp [hq])
    refine ⟨by omega, fun _ => by omega⟩
  · exact ⟨hle, hfull⟩

theorem timeInv_schedule {t : SimState S} {d : ℚ} {p : Proc}
    (h : TimeInv t) (hd : 0 ≤ d) : TimeInv (schedule t d p) := by
  obtain ⟨h1, h2, h3, h4⟩ := h
  refine ⟨pairwise_insertEv _ _ h1, ?_, h3, h4⟩
  intro b hb
  simp only [schedule] at hb ⊢
  rcases mem_insertEv.1 hb with rfl | hb
  · simp only []
    linarith
  · exact h2 b hb

theorem step_timeInv {R : RNG S} {cap : ℕ} {gap sv hor : ℚ}
    {s s' : SimState S} (h : step R cap gap sv hor s = .ok (some s'))
    (hI : TimeInv s) : TimeInv s' := by
  obtain ⟨e, rest, hev, hlt, hrun⟩ := step_ok_some h
  obtain ⟨hpw, hlow, hwq, hwt⟩ := hI
  rw [hev] at hpw hlow
  rw [List.pairwise_cons] at hpw
  obtain ⟨hhead, hpw'⟩ := hpw
  have hnow : s.now ≤ e.due := hlow e (List.mem_cons_self e rest)
  have hI1 : TimeInv ({ s with now := e.due, events := rest } : SimState S) :=
    ⟨hpw', hhead, fun a ha => le_trans (hwq a ha) hnow, hwt⟩
  rcases runEvent_cases hrun with
    ⟨hp, d, r, hd, hs'⟩ | ⟨hp, d, r, hd, hs'⟩ | ⟨hp, hc, d, r, hd, hs'⟩ |
    ⟨hp, hc, hs'⟩ | ⟨hp, hq, hs'⟩ | ⟨hp, a, tl, d, r, hq, hd, hs'⟩ | ⟨hp, hs'⟩ <;>
    subst hs'
  · exact timeInv_schedule hI1 hd
  · exact timeInv_schedule (timeInv_schedule hI1 le_rfl) hd
  · refine timeInv_schedule ⟨hI1.1, hI1.2.1, hI1.2.2.1, ?_⟩ hd
    intro w hw
    rcases List.mem_append.1 hw with hw | hw
    · exact hI1.2.2.2 w hw
    · simp at hw
      simp [hw]
  · refine ⟨hI1.1, hI1.2.1, ?_, hI1.2.2.2⟩
    intro a ha
    rcases List.mem_append.1 ha with ha | ha
    · exact hI1.2.2.1 a ha
    · simp at ha
      simp [ha]
  · exact ⟨hI1.1, hI1.2.1, hI1.2.2.1, hI1.2.2.2⟩
  · simp only [] at hq
    refine timeInv_schedule ⟨hI1.1, hI1.2.1, ?_, ?_⟩ hd
    · intro b hb
      exact hI1.2.2.1 b (by rw [hq]; exact List.mem_cons_of_mem a hb)
    · intro w hw
      rcases List.mem_append.1 hw with hw | hw
      · exact hI1.2.2.2 w hw
      · simp at hw
        subst hw
        have ha : a ≤ e.due := hI1.2.2.1 a (by rw [hq]; exact List.mem_cons_self a tl)
        simp
        linarith
  · exact timeInv_schedule ⟨hI1.1, hI1.2.1, hI1.2.2.1, hI1.2.2.2⟩ (by norm_num)

theorem initState_countInv (r0 : S) : CountInv (initState r0) := by
  simp [CountInv, initState, countProc]

theorem initState_resInv (c : ℕ) (r0 : S) : ResInv c (initState r0) := by
  refine ⟨Nat.zero_le _, ?_⟩
  intro hne
  simp [initState] at hne

theorem initState_timeInv (r0 : S) : TimeInv (initState r0) := by
  refine ⟨?_, ?_, ?_, ?_⟩ <;> simp [initState]

set_option maxHeartbeats 1000000 in
theorem traceState8_reached :
    stepsTo constRNG 1 1 1 4 8 (initState ()) = .ok (some traceState8) := by
  norm_num [stepsTo, step, runEvent, sampleAndScheduleGen, startService,
    schedule, insertEv, initState, constRNG, traceState8, Except.map]

theorem insertEv_insertEv (e₁ e₂ : Ev) (h : e₁.due ≤ e₂.due) :
    ∀ l : List Ev, ∃ A B, insertEv e₂ (insertEv e₁ l) = A ++ e₁ :: B ∧ e₂ ∈ B
  | [] => ⟨[], [e₂], by simp [insertEv, h], by simp⟩
  | x :: xs => by
    by_cases hx : x.due ≤ e₁.due
    · obtain ⟨A, B, hAB, hm⟩ := insertEv_insertEv e₁ e₂ h xs
      refine ⟨x :: A, B, ?_, hm⟩
      have hx2 : x.due ≤ e₂.due := le_trans hx h
      simp [insertEv, hx, hx2, hAB]
    · refine ⟨[], insertEv e₂ (x :: xs), ?_, mem_insertEv.2 (Or.inl rfl)⟩
      simp [insertEv, hx, h]

end Lemmas

/-- C1: for every configuration `(sim_time, num_agents, arrival_gap,
service_time, seed)`, two calls of `run_simulation` with identical arguments
produce identical output records.  The ambient state `g` of the global
`random` module — the only external state the function touches — is
overwritten by `random.seed(seed)` at line 61, so the result is a function of
the configuration alone. -/
theorem run_simulation_deterministic {T : Type} (Q : RNG T) (fuel : ℕ)
    (sim_time : ℚ) (num_agents : ℤ) (gap sv : ℚ) (seed : ℤ) (g₁ g₂ : T) :
    run_simulation Q fuel sim_time num_agents gap sv seed g₁ =
      run_simulation Q fuel sim_time num_agents gap sv seed g₂ := rfl

/-- C2: the metrics reduction computes `average_wait` and
`average_queue_length` as arithmetic means (0 on empty samples),
`throughput = finished_count / horizon`,
`utilization = throughput * mean_service_time / capacity`, and on the empty
statistics all four metrics are 0 with no division-by-zero fault (division
is total here; the hypotheses `0 < sim_time`, `0 < na` are the claim's
preconditions). -/
theorem metrics_reduction_spec (st : RunStatistics) (sim_time sv : ℚ)
    (na : ℤ) (hH : 0 < sim_time) (hC : 0 < na) :
    (computeMetrics st sim_time sv na).avg_wait = listMean st.wait_times ∧
    (computeMetrics st sim_time sv na).avg_queue =
      listMean (st.queue_sizes.map (Nat.cast : ℕ → ℚ)) ∧
    (computeMetrics st sim_time sv na).throughput =
      (st.finished_calls : ℚ) / sim_time ∧
    (computeMetrics st sim_time sv na).utilization =
      (computeMetrics st sim_time sv na).throughput * sv / (na : ℚ) ∧
    computeMetrics ⟨0, 0, [], []⟩ sim_time sv na = ⟨0, 0, 0, 0⟩ := by
  refine ⟨?_, ?_, rfl, rfl, ?_⟩
  · by_cases h : st.wait_times = [] <;> simp [computeMetrics, listMean, h]
  · by_cases h : st.queue_sizes = [] <;> simp [computeMetrics, listMean, h]
  · simp [computeMetrics]

/-- C2 witness: the reduction evaluated on a synthetic `RunStatistics`. -/
theorem metrics_reduction_spec_witness :
    (computeMetrics ⟨2, 1, [3], [2, 4]⟩ 10 2 2).avg_wait = listMean [3] ∧
    (computeMetrics ⟨2, 1, [3], [2, 4]⟩ 10 2 2).avg_queue =
      listMean (([2, 4] : List ℕ).map (Nat.cast : ℕ → ℚ)) ∧
    (computeMetrics ⟨2, 1, [3], [2, 4]⟩ 10 2 2).throughput = ((1 : ℕ) : ℚ) / 10 ∧
    (computeMetrics ⟨2, 1, [3], [2, 4]⟩ 10 2 2).utilization =
      (computeMetrics ⟨2, 1, [3], [2, 4]⟩ 10 2 2).throughput * 2 / ((2 : ℤ) : ℚ) ∧
    computeMetrics ⟨0, 0, [], []⟩ 10 2 2 = ⟨0, 0, 0, 0⟩ :=
  metrics_reduction_spec ⟨2, 1, [3], [2, 4]⟩ 10 2 2 (by norm_num) (by norm_num)

/-- C3: at every step of every simulation run,
`finished_calls ≤ arrived_calls` — proved from the conservation invariant
`CountInv`, which tracks every spawned caller through its lifecycle;
equality need not hold since pending callers remain in the counts. -/
theorem finished_le_arrived {T : Type} (Q : RNG T) (c : ℕ) (gap sv hor : ℚ)
    (r0 : T) (n : ℕ) (s' : SimState T)
    (h : stepsTo Q c gap sv hor n (initState r0) = .ok (some s')) :
    s'.finished_calls ≤ s'.arrived_calls := by
  have hinv := stepsTo_pres CountInv
    (fun s s1 hs hI => step_countInv hs hI) n (initState r0) s' h
    (initState_countInv r0)
  simp only [CountInv] at hinv
  omega

/-- C3 witness: the invariant on the concrete 8-step trace. -/
theorem finished_le_arrived_witness :
    traceState8.finished_calls ≤ traceState8.arrived_calls :=
  finished_le_arrived constRNG 1 1 1 4 () 8 traceState8 traceState8_reached

/-- C4: at every scheduler step of a run with positive capacity, the
resource satisfies `0 ≤ in_use ≤ capacity` and the wait queue is non-empty
only at full occupancy. -/
theorem resource_invariant {T : Type} (Q : RNG T) (c : ℕ) (gap sv hor : ℚ)
    (r0 : T) (hcap : 0 < c) (n : ℕ) (s' : SimState T)
    (h : stepsTo Q c gap sv hor n (initState r0) = .ok (some s')) :
    0 ≤ s'.in_use ∧ s'.in_use ≤ c ∧ (s'.wait_queue ≠ [] → s'.in_use = c) := by
  have hinv := stepsTo_pres (ResInv c)
    (fun s s1 hs hI => step_resInv hcap hs hI) n (initState r0) s' h
    (initState_resInv c r0)
  exact ⟨Nat.zero_le _, hinv.1, hinv.2⟩

/-- C4 witness: the invariant on the concrete 8-step trace. -/
theorem resource_invariant_witness :
    0 ≤ traceState8.in_use ∧ traceState8.in_use ≤ 1 ∧
      (traceState8.wait_queue ≠ [] → traceState8.in_use = 1) :=
  resource_invariant constRNG 1 1 1 4 () (by norm_num) 8 traceState8 traceState8_reached

/-- C5: events scheduled for the same simulated instant are resumed in
scheduling order.  Scheduling `p₁` and then `p₂` with the same delay places
`p₁`'s event strictly before `p₂`'s in the queue; since the scheduler always
pops the head of the queue, `p₁` is resumed first — in particular the
earlier-scheduled of two simultaneously-ready callers is served first. -/
theorem schedule_fifo_tiebreak {T : Type} (s : SimState T) (d : ℚ)
    (p₁ p₂ : Proc) :
    ∃ A B, (schedule (schedule s d p₁) d p₂).events
        = A ++ (⟨s.now + d, s.seqCtr, p₁⟩ : Ev) :: B ∧
      (⟨s.now + d, s.seqCtr + 1, p₂⟩ : Ev) ∈ B := by
  have h2 := insertEv_insertEv ⟨s.now + d, s.seqCtr, p₁⟩
    ⟨s.now + d, s.seqCtr + 1, p₂⟩ (le_refl _) s.events
  simpa [schedule] using h2

/-- C7: `next_exponential` fails with `InvalidMean` on every mean `≤ 0` and
returns a (non-negative, by the exponential sampler's contract) duration on
every positive mean. -/
theorem next_exponential_contract {T : Type} (Q : RNG T)
    (hQ : ∀ l t, 0 < l → 0 ≤ (Q.expovariate l t).1) (mean : ℚ) (t : T) :
    (mean ≤ 0 → next_exponential Q mean t = .error .invalidMean) ∧
    (0 < mean → next_exponential Q mean t = .ok (Q.expovariate (1 / mean) t) ∧
      0 ≤ (Q.expovariate (1 / mean) t).1) := by
  constructor
  · intro hm
    simp [next_exponential, hm]
  · intro hm
    refine ⟨?_, hQ _ _ (by positivity)⟩
    simp [next_exponential, not_le.2 hm]

/-- C7 witness: the contract evaluated at `mean = -1` and `mean = 2`. -/
theorem next_exponential_contract_witness :
    next_exponential constRNG (-1) () = .error .invalidMean ∧
    next_exponential constRNG 2 () = .ok (1, ()) := by
  have h := next_exponential_contract constRNG
    (fun l t hl => by norm_num [constRNG])
  exact ⟨(h (-1) ()).1 (by norm_num), ((h 2 ()).2 (by norm_num)).1⟩

/-- C10: every recorded wait sample is non-negative: a caller's wait is the
grant time minus its arrival time, and the clock at the grant is never
earlier than the arrival (`TimeInv`). -/
theorem wait_samples_nonneg {T : Type} (Q : RNG T) (c : ℕ) (gap sv hor : ℚ)
    (r0 : T) (n : ℕ) (s' : SimState T)
    (h : stepsTo Q c gap sv hor n (initState r0) = .ok (some s')) :
    ∀ w ∈ s'.wait_times, 0 ≤ w :=
  (stepsTo_pres TimeInv (fun s s1 hs hI => step_timeInv hs hI) n
    (initState r0) s' h (initState_timeInv r0)).2.2.2

/-- C10 witness: the sample `0` recorded on the concrete 8-step trace is
non-negative. -/
theorem wait_samples_nonneg_witness : (0 : ℚ) ≤ 0 :=
  wait_samples_nonneg constRNG 1 1 1 4 () 8 traceState8 traceState8_reached 0 (by simp [traceState8])

theorem step_queue_sizes_extend {T : Type} {Q : RNG T} {c : ℕ}
    {gap sv hor : ℚ} {s s' : SimState T}
    (h : step Q c gap sv hor s = .ok (some s')) :
    s.queue_sizes <+: s'.queue_sizes := by
  obtain ⟨e, rest, hev, hlt, hrun⟩ := step_ok_some h
  rcases runEvent_cases hrun with
    ⟨hp, d, r, hd, hs'⟩ | ⟨hp, d, r, hd, hs'⟩ | ⟨hp, hc, d, r, hd, hs'⟩ |
    ⟨hp, hc, hs'⟩ | ⟨hp, hq, hs'⟩ | ⟨hp, a, tl, d, r, hq, hd, hs'⟩ | ⟨hp, hs'⟩ <;>
    subst hs' <;>
    first
    | exact List.prefix_rfl
    | exact List.prefix_append _ _

theorem runLoop_queue_sizes_extend {T : Type} {Q : RNG T} {c : ℕ}
    {gap sv hor : ℚ} :
    ∀ n (s s' : SimState T), runLoop Q c gap sv hor n s = .ok s' →
      s.queue_sizes <+: s'.queue_sizes := by
  intro n
  induction n with
  | zero =>
    intro s s' h
    exact absurd h (by simp [runLoop])
  | succ n ih =>
    intro s s' h
    unfold runLoop at h
    cases hst : step Q c gap sv hor s with
    | error ex => rw [hst] at h; exact absurd h (by simp)
    | ok o =>
      cases o with
      | none =>
        rw [hst] at h
        simp only [Except.ok.injEq] at h
        rw [← h]
      | some s1 =>
        rw [hst] at h
        exact List.IsPrefix.trans (step_queue_sizes_extend hst) (ih s1 s' h)

theorem runLoop_first_sample {T : Type} {Q : RNG T} {c : ℕ}
    {gap sv hor : ℚ} {r0 : T} {fuel : ℕ} {sfin : SimState T}
    (hhor : 0 < hor)
    (h : runLoop Q c gap sv hor fuel (initState r0) = .ok sfin) :
    sfin.queue_sizes ≠ [] ∧ sfin.queue_sizes.head? = some 0 := by
  cases fuel with
  | zero => exact absurd h (by simp [runLoop])
  | succ m =>
    unfold runLoop at h
    rw [step_cons (show (initState r0).events =
      (⟨0, 0, .genStart⟩ : Ev) :: [⟨0, 1, .samplerWake⟩] from rfl)] at h
    rw [if_neg (by simpa using not_le.2 hhor)] at h
    simp only [runEvent, sampleAndScheduleGen, initState] at h
    by_cases hgap : gap = 0
    · rw [if_pos hgap] at h
      simp [Except.map] at h
    · rw [if_neg hgap] at h
      by_cases hd : (Q.expovariate (1 / gap) r0).1 < 0
      · rw [if_pos hd] at h
        simp [Except.map] at h
      · rw [if_neg hd] at h
        have hd0 : (0 : ℚ) ≤ (Q.expovariate (1 / gap) r0).1 := le_of_not_lt hd
        simp only [Except.map, schedule] at h
        rw [show insertEv
              ⟨0 + (Q.expovariate (1 / gap) r0).1, 2, .genWake⟩
              [⟨0, 1, .samplerWake⟩] =
            [⟨0, 1, .samplerWake⟩,
             ⟨0 + (Q.expovariate (1 / gap) r0).1, 2, .genWake⟩]
          from by
            rw [insertEv, if_pos (by linarith), insertEv]] at h
        cases m with
        | zero => exact absurd h (by simp [runLoop])
        | succ k =>
          unfold runLoop at h
          rw [step_cons rfl] at h
          rw [if_neg (by simpa using not_le.2 hhor)] at h
          simp only [runEvent, schedule, Except.map, List.nil_append,
            List.length_nil] at h
          have hpre := runLoop_queue_sizes_extend k _ sfin h
          obtain ⟨t, ht⟩ := hpre
          simp only [] at ht
          refine ⟨?_, ?_⟩ <;> rw [← ht] <;> simp

set_option maxHeartbeats 1000000 in
theorem runStats_small :
    runStats constRNG 3 1 1 1 1 0 () = .ok finalStateSmall := by
  norm_num [runStats, runLoop, step, runEvent, sampleAndScheduleGen,
    startService, schedule, insertEv, initState, constRNG, finalStateSmall,
    Except.map]

/-- C6 counterexample: for the configuration `sim_time = 1, num_agents = 1,
arrival_gap = 0, service_time = 1, seed = 0` — a non-positive arrival gap —
the run does not fail with the spec's `InvalidConfiguration` before the
scheduler starts: it fails with a `ZeroDivisionError` raised inside the
scheduler loop, at `generate_customers`' first resumption (line 40,
`1 / arrival_gap`). -/
theorem zero_gap_not_invalid_configuration :
    run_simulation constRNG 1 1 1 0 1 0 () = .error .zeroDivision ∧
    SimError.zeroDivision ≠ SimError.invalidConfiguration := by
  constructor
  · norm_num [run_simulation, runStats, runLoop, step, runEvent,
      sampleAndScheduleGen, initState, constRNG, Except.map]
  · simp

/-- C6 amended: `run_simulation` performs no upfront validation and never
raises an `InvalidConfiguration`.  A non-positive agent count is rejected by
`simpy.Resource` (a `ValueError`) before the scheduler starts; a non-positive
horizon is rejected by `env.run` (a `ValueError`) after the environment,
resource and processes already exist; a zero arrival gap raises
`ZeroDivisionError` only during the scheduler loop, at the generator's first
resumption. -/
theorem configuration_failure_modes {T : Type} (Q : RNG T) (fuel : ℕ)
    (sim_time : ℚ) (na : ℤ) (gap sv : ℚ) (seed : ℤ) (g : T) :
    (na ≤ 0 →
      run_simulation Q fuel sim_time na gap sv seed g =
        .error .valueErrorCapacity) ∧
    (0 < na → sim_time ≤ 0 →
      run_simulation Q fuel sim_time na gap sv seed g =
        .error .untilNotPositive) ∧
    (0 < na → 0 < sim_time → gap = 0 → 1 ≤ fuel →
      run_simulation Q fuel sim_time na gap sv seed g =
        .error .zeroDivision) := by
  refine ⟨?_, ?_, ?_⟩
  · intro hna
    simp [run_simulation, runStats, hna, Except.map]
  · intro hna hst
    simp [run_simulation, runStats, not_le.2 hna, hst, Except.map]
  · intro hna hst hgap hfuel
    obtain ⟨m, rfl⟩ : ∃ m, fuel = m + 1 := ⟨fuel - 1, by omega⟩
    simp only [run_simulation, runStats, if_neg (not_le.2 hna),
      if_neg (not_le.2 hst)]
    unfold runLoop
    rw [step_cons (show (initState (Q.seedFn seed)).events =
      (⟨0, 0, .genStart⟩ : Ev) :: [⟨0, 1, .samplerWake⟩] from rfl)]
    rw [if_neg (by simpa using not_le.2 hst)]
    simp [runEvent, sampleAndScheduleGen, hgap, Except.map]

/-- C6 amended witness: the three failure modes at concrete configurations
(`num_agents = 0`; `sim_time = 0`; `arrival_gap = 0`). -/
theorem configuration_failure_modes_witness :
    run_simulation constRNG 1 1 0 1 1 0 () = .error .valueErrorCapacity ∧
    run_simulation constRNG 1 0 1 1 1 0 () = .error .untilNotPositive ∧
    run_simulation constRNG 1 1 1 0 1 0 () = .error .zeroDivision :=
  ⟨(configuration_failure_modes constRNG 1 1 0 1 1 0 ()).1 (by norm_num),
   (configuration_failure_modes constRNG 1 0 1 1 1 0 ()).2.1 (by norm_num)
     (by norm_num),
   (configuration_failure_modes constRNG 1 1 1 0 1 0 ()).2.2 (by norm_num)
     (by norm_num) rfl (by norm_num)⟩

/-- C8: for every successful run, the output record is exactly the rounding
of the engine's unrounded metrics (`computeMetrics`) at the fixed display
precision — 2 decimal places for average wait and average queue length,
3 decimal places for throughput and utilization — applied only at record
formation (lines 94-102), after the unrounded metrics of lines 80-92. -/
theorem record_rounding {T : Type} (Q : RNG T) (fuel : ℕ) (sim_time : ℚ)
    (na : ℤ) (gap sv : ℚ) (seed : ℤ) (g : T) (sfin : SimState T)
    (h : runStats Q fuel sim_time na gap sv seed g = .ok sfin) :
    run_simulation Q fuel sim_time na gap sv seed g =
      .ok (mkRecord na (computeMetrics (statsOf sfin) sim_time sv na)
            (statsOf sfin)) ∧
    (mkRecord na (computeMetrics (statsOf sfin) sim_time sv na)
        (statsOf sfin)).average_wait =
      pyRound 2 (computeMetrics (statsOf sfin) sim_time sv na).avg_wait ∧
    (mkRecord na (computeMetrics (statsOf sfin) sim_time sv na)
        (statsOf sfin)).average_queue_length =
      pyRound 2 (computeMetrics (statsOf sfin) sim_time sv na).avg_queue ∧
    (mkRecord na (computeMetrics (statsOf sfin) sim_time sv na)
        (statsOf sfin)).throughput =
      pyRound 3 (computeMetrics (statsOf sfin) sim_time sv na).throughput ∧
    (mkRecord na (computeMetrics (statsOf sfin) sim_time sv na)
        (statsOf sfin)).utilization =
      pyRound 3 (computeMetrics (statsOf sfin) sim_time sv na).utilization := by
  refine ⟨?_, rfl, rfl, rfl, rfl⟩
  simp [run_simulation, h, Except.map]

/-- C8 witness: the rounding equations on a complete concrete run. -/
theorem record_rounding_witness :
    run_simulation constRNG 3 1 1 1 1 0 () =
      .ok (mkRecord 1 (computeMetrics (statsOf finalStateSmall) 1 1 1)
            (statsOf finalStateSmall)) ∧
    (mkRecord 1 (computeMetrics (statsOf finalStateSmall) 1 1 1)
        (statsOf finalStateSmall)).average_wait =
      pyRound 2 (computeMetrics (statsOf finalStateSmall) 1 1 1).avg_wait ∧
    (mkRecord 1 (computeMetrics (statsOf finalStateSmall) 1 1 1)
        (statsOf finalStateSmall)).average_queue_length =
      pyRound 2 (computeMetrics (statsOf finalStateSmall) 1 1 1).avg_queue ∧
    (mkRecord 1 (computeMetrics (statsOf finalStateSmall) 1 1 1)
        (statsOf finalStateSmall)).throughput =
      pyRound 3 (computeMetrics (statsOf finalStateSmall) 1 1 1).throughput ∧
    (mkRecord 1 (computeMetrics (statsOf finalStateSmall) 1 1 1)
        (statsOf finalStateSmall)).utilization =
      pyRound 3 (computeMetrics (statsOf finalStateSmall) 1 1 1).utilization :=
  record_rounding constRNG 3 1 1 1 1 0 () finalStateSmall runStats_small

/-- C9: every successful run records its first queue sample at virtual time
0, before any caller has arrived; hence `queue_sizes` is non-empty and its
first element is 0 (so the average queue length is a mean over at least one
sample). -/
theorem first_queue_sample_zero {T : Type} (Q : RNG T) (fuel : ℕ)
    (sim_time : ℚ) (na : ℤ) (gap sv : ℚ) (seed : ℤ) (g : T)
    (sfin : SimState T)
    (h : runStats Q fuel sim_time na gap sv seed g = .ok sfin) :
    sfin.queue_sizes ≠ [] ∧ sfin.queue_sizes.head? = some 0 := by
  unfold runStats at h
  split at h
  · exact absurd h (by simp)
  · split at h
    · exact absurd h (by simp)
    · rename_i hna hst
      exact runLoop_first_sample (by exact lt_of_not_le hst) h

/-- C9 witness: the first queue sample of the complete concrete run is 0. -/
theorem first_queue_sample_zero_witness :
    finalStateSmall.queue_sizes ≠ [] ∧
      finalStateSmall.queue_sizes.head? = some 0 :=
  first_queue_sample_zero constRNG 3 1 1 1 1 0 () finalStateSmall runStats_small

end CallCenter
